import Mathlib

/-!
Verification of the FAQ helpdesk matcher (`encoder.py`, `benchmark/run.py`,
`build.py`) against its natural-language specification.

Shallow embedding conventions:
* Python `float` scores and weights are modelled as `ℚ`; the claims under
  study are algebraic (weighted averages, bounds, ordering), not about
  floating-point rounding error.
* Text is modelled as `String` / `List Char`; the repository's data is
  ASCII, and `Char.toLower`, `Char.isAlphanum`, `Char.isWhitespace`
  coincide with Python's `str.lower`, `\w`, `\s` on that range.
* The external `glyphh` encoding engine and the intent extractor are
  out of scope by the specification's own statement; they appear as
  explicit function parameters (`cos`, `hash`, `extract`) of the
  operations that consume them.
-/

namespace FAQ

/-- Role vectors as produced by the external encoder (numeric arrays). -/
abbrev Vec := List ℚ

/-- A flattened role bundle: role name → vector, `none` when the role is
absent from the bundle (mirrors the Python dict `q_roles` / `e_roles`). -/
abbrev Bundle := String → Option Vec

-- ═══════════════════════════════════════════════════════════════
-- benchmark/run.py — ROLE_WEIGHTS and Pattern A scoring
-- ═══════════════════════════════════════════════════════════════

/-- `ROLE_WEIGHTS` from `benchmark/run.py` lines 42-47, in dict insertion
order: question 1.0, category 0.6, keywords 0.8, answer 0.4. -/
def ROLE_WEIGHTS : List (String × ℚ) :=
  [("question", 1), ("category", 3/5), ("keywords", 4/5), ("answer", 2/5)]

/-- One iteration of the scoring loop of `FAQMatcher.match`
(`run.py` lines 101-105): when the role is present in both bundles,
accumulate `sim * w` into `weighted_sum` and `w` into `weight_total`. -/
def scoreStep (cos : Vec → Vec → ℚ) (qb eb : Bundle) (acc : ℚ × ℚ)
    (rw : String × ℚ) : ℚ × ℚ :=
  match qb rw.1, eb rw.1 with
  | some qv, some ev => (acc.1 + cos qv ev * rw.2, acc.2 + rw.2)
  | _, _ => acc

/-- The combined similarity score of `FAQMatcher.match` (`run.py` lines
99-107), generalised over the role-weight table as the spec's
`score(query_bundle, candidate_bundle, role_weights)` contract is:
`weighted_sum / weight_total if weight_total > 0 else 0.0`. -/
def scoreWith (cos : Vec → Vec → ℚ) (weights : List (String × ℚ))
    (qb eb : Bundle) : ℚ :=
  let t := weights.foldl (scoreStep cos qb eb) (0, 0)
  if 0 < t.2 then t.1 / t.2 else 0

/-- The score as actually computed by the matcher: `scoreWith` at the
fixed `ROLE_WEIGHTS` table. -/
def score (cos : Vec → Vec → ℚ) (qb eb : Bundle) : ℚ :=
  scoreWith cos ROLE_WEIGHTS qb eb

/-- The sublist of the weight table whose roles are present in BOTH
bundles (the roles that contribute to the score). -/
def sharedRoles (qb eb : Bundle) : List (String × ℚ) :=
  ROLE_WEIGHTS.filter (fun p => (qb p.1).isSome && (eb p.1).isSome)

/-- Cosine applied through the `Option` wrapper; only ever used where
both vectors are present. -/
def cosO (cos : Vec → Vec → ℚ) : Option Vec → Option Vec → ℚ
  | some a, some b => cos a b
  | _, _ => 0

-- ═══════════════════════════════════════════════════════════════
-- benchmark/run.py — ranking and match decision
-- ═══════════════════════════════════════════════════════════════

/-- Candidate metadata attached to each FAQ glyph
(`entry_to_record`'s `metadata` dict, `encoder.py` lines 236-241). -/
structure Meta where
  question_id : String
  category : String
  answer : String
  original_question : String
deriving DecidableEq

/-- Stable insertion of one scored candidate into a descending list:
the new element goes in front of the first element whose score is ≤ its
own.  Together with `sortDesc` this models Python's stable
`scores.sort(key=lambda x: x[0], reverse=True)` (`run.py` line 110). -/
def insertDesc (x : ℚ × Meta) : List (ℚ × Meta) → List (ℚ × Meta)
  | [] => [x]
  | y :: ys => if y.1 ≤ x.1 then x :: y :: ys else y :: insertDesc x ys

/-- Stable descending sort by score (see `insertDesc`).  Faithfulness to
Python's stable sort is established by the sortedness + stability
characterisation proved below, which determines the output uniquely. -/
def sortDesc : List (ℚ × Meta) → List (ℚ × Meta)
  | [] => []
  | x :: xs => insertDesc x (sortDesc xs)

/-- The scoring loop plus sort of `FAQMatcher.match` (`run.py` lines
90-110): score the query bundle against every candidate in the corpus,
then sort descending. -/
def rankCandidates (cos : Vec → Vec → ℚ) (qb : Bundle)
    (corpus : List (Bundle × Meta)) : List (ℚ × Meta) :=
  sortDesc (corpus.map (fun c => (score cos qb c.1, c.2)))

/-- The result dict of `FAQMatcher.match` (`latency_ms`, a wall-clock
measurement, is outside the embedding). -/
structure MatchResult where
  question_id : Option String
  category : Option String
  answer : Option String
  confidence : ℚ
  top_3 : List (String × ℚ)
deriving DecidableEq

/-- Python's `round(x, 4)` (`run.py` lines 115, 124, 132), modelled as
exact rounding to the nearest multiple of `1/10000`; the inputs used in
the development stay clear of half-way ties, where Python's float
rounding could differ. -/
def round4 (q : ℚ) : ℚ := (round (q * 10000) : ℤ) / 10000

/-- The `top_3` diagnostic payload (`run.py` lines 114-117). -/
def top3 (scores : List (ℚ × Meta)) : List (String × ℚ) :=
  (scores.take 3).map (fun p => (p.2.question_id, round4 p.1))

/-- The decision tail of `FAQMatcher.match` (`run.py` lines 113-135):
`top_score, top_meta = scores[0] if scores else (0.0, None)`, then
return the top candidate's fields when `top_score >= threshold and
top_meta`, else the all-null abstain result. -/
def decideMatch (threshold : ℚ) (scores : List (ℚ × Meta)) : MatchResult :=
  let top : ℚ × Option Meta :=
    match scores with
    | [] => (0, none)
    | p :: _ => (p.1, some p.2)
  match top.2 with
  | some m =>
    if threshold ≤ top.1 then
      ⟨some m.question_id, some m.category, some m.answer,
        round4 top.1, top3 scores⟩
    else ⟨none, none, none, round4 top.1, top3 scores⟩
  | none => ⟨none, none, none, round4 top.1, top3 scores⟩

/-- `FAQMatcher.match` end to end (scoring + ranking + decision), with
the query already encoded and flattened into a bundle. -/
def matchQuery (cos : Vec → Vec → ℚ) (threshold : ℚ) (qb : Bundle)
    (corpus : List (Bundle × Meta)) : MatchResult :=
  decideMatch threshold (rankCandidates cos qb corpus)

-- ═══════════════════════════════════════════════════════════════
-- encoder.py — category inference
-- ═══════════════════════════════════════════════════════════════

/-- `_CATEGORY_SIGNALS` (`encoder.py` lines 101-121), in dict insertion
order (the tie-break enumeration order).  Note `"package"` appears twice
under `shipping`, exactly as in the source. -/
def _CATEGORY_SIGNALS : List (String × List String) :=
  [("account",   ["account", "login", "password", "sign in", "register", "profile",
                  "verify", "2fa", "mfa", "username", "email address", "two-factor"]),
   ("billing",   ["billing", "invoice", "charge", "payment", "subscription", "plan",
                  "upgrade", "downgrade", "refund", "credit card", "receipt", "price",
                  "cost", "fee", "charged", "billed", "money back"]),
   ("product",   ["feature", "setup", "configure", "integration", "api", "dashboard",
                  "settings", "tutorial", "get started", "how to use", "install",
                  "connect", "enable", "available"]),
   ("shipping",  ["shipping", "delivery", "track", "tracking", "ship", "arrive",
                  "package", "courier", "transit", "estimated", "international",
                  "deliver", "order", "package"]),
   ("returns",   ["return", "exchange", "warranty", "damaged", "broken", "wrong item",
                  "cancel order", "return policy", "send back", "send it back",
                  "wrong", "defective"]),
   ("technical", ["error", "bug", "crash", "not working", "broken", "fix", "issue",
                  "troubleshoot", "debug", "timeout", "500", "404", "slow",
                  "loading", "problem", "fails", "failing"]),
   ("general",   ["contact", "support", "business hours", "phone", "privacy policy",
                  "data", "gdpr", "hours", "talk to", "speak to", "human"])]

/-- `_DOMAIN_CATEGORY` (`encoder.py` lines 124-127). -/
def _DOMAIN_CATEGORY : List (String × String) :=
  [("payments", "billing"), ("tickets", "technical")]

/-- `_ACTION_CATEGORY` (`encoder.py` lines 130-136). -/
def _ACTION_CATEGORY : List (String × String) :=
  [("charge", "billing"), ("refund", "billing"), ("subscribe", "billing"),
   ("cancel", "billing"), ("track", "shipping")]

/-- Python `str.lower()` (ASCII range). -/
def pyLower (s : String) : String := ⟨s.data.map Char.toLower⟩

/-- Boolean contiguous-sublist test (needed because this toolchain has
no `List.isInfixOf`): does `needle` occur contiguously inside `hay`? -/
def isSub (needle : List Char) : List Char → Bool
  | [] => needle.isEmpty
  | c :: rest => needle.isPrefixOf (c :: rest) || isSub needle rest

/-- Python's substring containment `needle in hay` for strings. -/
def containsSub (hay needle : String) : Bool := isSub needle.data hay.data

/-- `sum(1 for s in signals if s in lower)` (`encoder.py` line 148):
the number of signal phrases (with multiplicity) occurring as substrings
of the lowered text. -/
def countSignals (signals : List String) (lower : String) : Nat :=
  (signals.filter (fun s => containsSub lower s)).length

/-- The best-so-far fold of `_infer_category`'s loop (`encoder.py`
lines 146-151): update the accumulator exactly when the new score is
strictly greater. -/
def selectBest (acc : String × Nat) : List (String × Nat) → String × Nat
  | [] => acc
  | p :: rest => selectBest (if acc.2 < p.2 then p else acc) rest

/-- The per-category signal counts of the lowered text, in table order. -/
def categoryScores (lower : String) : List (String × Nat) :=
  _CATEGORY_SIGNALS.map (fun cs => (cs.1, countSignals cs.2 lower))

/-- `best_cat, best_score` at the end of `_infer_category`'s loop,
starting from `("general", 0)`. -/
def bestCategory (lower : String) : String × Nat :=
  selectBest ("general", 0) (categoryScores lower)

/-- `_infer_category` (`encoder.py` lines 139-161): text signals first;
domain then action shortcut tables only when no text signal fired; the
final `return best_cat` yields the initial `"general"`. -/
def _infer_category (text : String) (domain : String := "")
    (action : String := "") : String :=
  let best := bestCategory (pyLower text)
  if 0 < best.2 then best.1
  else
    match _DOMAIN_CATEGORY.lookup domain with
    | some c => c
    | none =>
      match _ACTION_CATEGORY.lookup action with
      | some c => c
      | none => best.1

-- ═══════════════════════════════════════════════════════════════
-- encoder.py — text preprocessing
-- ═══════════════════════════════════════════════════════════════

/-- Python's `\w` word-character class on the ASCII range:
alphanumeric or underscore. -/
def isWordChar (c : Char) : Bool := c.isAlphanum || c == '_'

/-- Python `str.strip()` on a character list: drop whitespace from both
ends. -/
def pyStripWs (s : List Char) : List Char :=
  ((s.dropWhile Char.isWhitespace).reverse.dropWhile Char.isWhitespace).reverse

/-- `_preprocess` (`encoder.py` lines 164-166):
`re.sub(r"[^\w\s]", " ", text.lower()).strip()` — lowercase, replace
every character that is neither a word character nor whitespace by a
single space, then strip the ends. -/
def _preprocess (text : String) : String :=
  ⟨pyStripWs ((pyLower text).data.map
    (fun c => if isWordChar c || c.isWhitespace then c else ' '))⟩

-- ═══════════════════════════════════════════════════════════════
-- encoder.py — encode_query
-- ═══════════════════════════════════════════════════════════════

/-- The intent extractor's output (`extracted.get(...) or ""`): Python's
falsy `None`/`""` both collapse to the empty string. -/
structure Extracted where
  domain : String
  action : String
  keywords : String
deriving DecidableEq

/-- The `attributes` dict shared by query records and FAQ records. -/
structure Attributes where
  question_id : String
  category : String
  question : String
  answer : String
  keywords : String
deriving DecidableEq

/-- The Concept-compatible dict returned by `encode_query`. -/
structure QueryRecord where
  name : String
  attributes : Attributes
deriving DecidableEq

/-- The numeric value of one hexadecimal digit as `int(s, 16)` assigns
it (via the character's code point); 0 for non-hex characters, which do
not occur in an MD5 hex digest. -/
def hexVal (c : Char) : Nat :=
  if 48 ≤ c.toNat ∧ c.toNat ≤ 57 then c.toNat - 48
  else if 97 ≤ c.toNat ∧ c.toNat ≤ 102 then c.toNat - 87
  else if 65 ≤ c.toNat ∧ c.toNat ≤ 70 then c.toNat - 55
  else 0

/-- Python `int(s, 16)` over a hex-digit string. -/
def hexToNat (s : List Char) : Nat :=
  s.foldl (fun a c => 16 * a + hexVal c) 0

/-- `int(hashlib.md5(query.encode()).hexdigest()[:8], 16)`
(`encoder.py` line 187).  The MD5 digest itself lives in Python's
standard library, outside this repository, so it is a parameter `hash`;
the claim-relevant structure — a fixed hash of the RAW query, truncated
to the first 8 hex digits — is explicit. -/
def stable_id (hash : String → List Char) (query : String) : Nat :=
  hexToNat ((hash query).take 8)

/-- Python's `f"{n:08d}"`: decimal digits left-padded with zeros to
width 8 (wider numbers print in full). -/
def pad8 (n : Nat) : String :=
  let s := toString n
  ⟨List.replicate (8 - s.length) '0'⟩ ++ s

/-- `encode_query` (`encoder.py` lines 173-198), with the external MD5
(`hash`) and intent extractor (`extract`) as parameters.  The extractor
is applied to the cleaned text; `keywords` falls back to the cleaned
text when the extractor's keywords are empty (Python `or`). -/
def encode_query (hash : String → List Char)
    (extract : String → Extracted) (query : String) : QueryRecord :=
  let cleaned := _preprocess query
  let ex := extract cleaned
  let category := _infer_category cleaned ex.domain ex.action
  let keywords := if ex.keywords = "" then cleaned else ex.keywords
  let sid := stable_id hash query
  { name := "query_" ++ pad8 sid,
    attributes :=
      { question_id := ""
        category := category
        question := cleaned
        answer := ""
        keywords := keywords } }

-- ═══════════════════════════════════════════════════════════════
-- encoder.py — entry_to_record, build.py — load_all_jsonl
-- ═══════════════════════════════════════════════════════════════

/-- A JSONL `keywords` value: a list of strings or a single string
(`encoder.py` line 212 branches on `isinstance(kw_list, list)`). -/
inductive JsonKeywords where
  | ofList (l : List String)
  | ofStr (s : String)
deriving DecidableEq

/-- A parsed JSONL entry; `none` models an absent key (Python
`entry.get(k, default)`). -/
structure Entry where
  question_id : Option String
  category : Option String
  question : Option String
  answer : Option String
  keywords : Option JsonKeywords
deriving DecidableEq

/-- Python `" ".join(kw_list)`. -/
def joinSpace (l : List String) : String := String.intercalate " " l

/-- A character kept verbatim by the slug regex `[^a-z0-9]+`. -/
def slugChar (c : Char) : Bool :=
  (97 ≤ c.toNat && c.toNat ≤ 122) || c.isDigit

/-- `re.sub(r"[^a-z0-9]+", "_", s)`: each maximal run of non-kept
characters becomes a single underscore (`prevBad` tracks whether the
previous character was part of such a run). -/
def collapseRuns (prevBad : Bool) : List Char → List Char
  | [] => []
  | c :: rest =>
    if slugChar c then c :: collapseRuns false rest
    else if prevBad then collapseRuns true rest
    else '_' :: collapseRuns true rest

/-- Python `str.strip("_")`: drop underscores from both ends. -/
def stripUnderscore (s : List Char) : List Char :=
  ((s.dropWhile (· == '_')).reverse.dropWhile (· == '_')).reverse

/-- The auto-generated id slug (`encoder.py` line 216):
`re.sub(r"[^a-z0-9]+", "_", question.lower()).strip("_")[:40]`. -/
def slug (question : String) : String :=
  ⟨(stripUnderscore (collapseRuns false (pyLower question).data)).take 40⟩

/-- The record returned by `entry_to_record`. -/
structure RecordOut where
  concept_text : String
  attributes : Attributes
  metadata : Meta
deriving DecidableEq

/-- `entry_to_record` (`encoder.py` lines 205-242): missing fields
default to `""` (or `[]` for keywords), the id and category are
auto-derived when absent, question/answer are preprocessed for the
attributes but kept raw in the metadata. -/
def entry_to_record (entry : Entry) : RecordOut :=
  let question := entry.question.getD ""
  let question_id0 := entry.question_id.getD ""
  let category0 := entry.category.getD ""
  let answer := entry.answer.getD ""
  let kw_str :=
    match entry.keywords.getD (.ofList []) with
    | .ofList l => joinSpace l
    | .ofStr s => s
  let question_id :=
    if question_id0 = "" then "faq_" ++ slug question else question_id0
  let category :=
    if category0 = "" then _infer_category question else category0
  { concept_text := question
    attributes :=
      { question_id := question_id
        category := category
        question := _preprocess question
        answer := _preprocess answer
        keywords := kw_str }
    metadata :=
      { question_id := question_id
        category := category
        answer := answer
        original_question := question } }

/-- One input line of `load_all_jsonl` (`build.py` lines 35-43) after
the JSON parser ran on it: blank (skipped silently), invalid JSON
(skipped with a warning), or a parsed entry. -/
inductive RawLine where
  | blank
  | bad
  | parsed (e : Entry)
deriving DecidableEq

/-- `load_all_jsonl`'s per-file loop (`build.py` lines 26-45): append
each successfully parsed entry, skip blank and bad lines, never abort. -/
def load_all_jsonl (lines : List RawLine) : List Entry :=
  lines.foldl
    (fun acc l =>
      match l with
      | .parsed e => acc ++ [e]
      | _ => acc)
    []

-- ═══════════════════════════════════════════════════════════════
-- Definitions written from the claims' words (for refutation /
-- refinement comparison only — NOT translations of the source)
-- ═══════════════════════════════════════════════════════════════

/-- Whitespace-run collapsing used by `cleanClaim` below: each maximal
whitespace run becomes one space. -/
def collapseWs (prevWs : Bool) : List Char → List Char
  | [] => []
  | c :: rest =>
    if c.isWhitespace then
      if prevWs then collapseWs true rest
      else ' ' :: collapseWs true rest
    else c :: collapseWs false rest

/-- The cleaning function exactly as claim C7 describes it: lowercase,
REMOVE every character that is neither alphanumeric nor whitespace,
collapse whitespace, trim the edges.  Written from the claim's words,
not from the source, to compare against `_preprocess`. -/
def cleanClaim (s : String) : String :=
  ⟨pyStripWs (collapseWs false
    ((pyLower s).data.filter (fun c => c.isAlphanum || c.isWhitespace)))⟩

/-- The amended description of `_preprocess` (see claim C7), written as
a single fused pass to be compared with the source translation:
lowercase; REPLACE each character that is neither a word character
(alphanumeric or underscore) nor whitespace by one space; strip the
surrounding whitespace.  Interior whitespace is not collapsed. -/
def cleanAmended (s : String) : String :=
  ⟨pyStripWs (s.data.foldr
    (fun c acc =>
      (if isWordChar c.toLower || c.toLower.isWhitespace
       then c.toLower else ' ') :: acc)
    [])⟩

-- Sample data used by witnesses and counterexamples.

/-- A cosine stub that always answers 0 (trivially within [-1, 1]). -/
def cosZero : Vec → Vec → ℚ := fun _ _ => 0

/-- A cosine stub that always answers -1 (within [-1, 1], the worst
case allowed by the spec's own `# in [-1, 1]` annotation). -/
def cosNegOne : Vec → Vec → ℚ := fun _ _ => -1

/-- A bundle with no roles at all. -/
def bNone : Bundle := fun _ => none

/-- A bundle carrying the same one-dimensional vector for every role. -/
def bOne : Bundle := fun _ => some [1]

/-- Concrete candidate metadata for witnesses. -/
def sampleMeta : Meta :=
  { question_id := "faq_sample", category := "billing",
    answer := "Sample answer.", original_question := "sample?" }

/-- A fixed stand-in for the MD5 hex digest function. -/
def hashConst : String → List Char :=
  fun _ => "d41d8cd98f00b204e9800998ecf8427e".data

/-- An extractor that finds nothing (all fields empty). -/
def extractNone : String → Extracted :=
  fun _ => { domain := "", action := "", keywords := "" }

/-- An entry whose `question` key is absent. -/
def entryNoQuestion : Entry :=
  { question_id := none, category := none, question := none,
    answer := none, keywords := none }

end FAQ

-- ═══════════════════════════════════════════════════════════════
-- Theorems
-- ═══════════════════════════════════════════════════════════════

namespace FAQ

/-- The scoring fold accumulates exactly the weighted similarity sum and
the weight total over the roles present in both bundles. -/
theorem scoreStep_foldl_eq (cos : Vec → Vec → ℚ) (qb eb : Bundle) :
    ∀ (l : List (String × ℚ)) (acc : ℚ × ℚ),
    l.foldl (scoreStep cos qb eb) acc =
      (acc.1 + ((l.filter (fun p => (qb p.1).isSome && (eb p.1).isSome)).map
          (fun p => cosO cos (qb p.1) (eb p.1) * p.2)).sum,
       acc.2 + ((l.filter (fun p => (qb p.1).isSome && (eb p.1).isSome)).map
          (fun p => p.2)).sum) := by
  intro l
  induction l with
  | nil => intro acc; simp
  | cons p rest ih =>
    intro acc
    rcases hq : qb p.1 with _ | qv
    · rcases he : eb p.1 with _ | ev <;>
        simp [scoreStep, hq, he, ih, cosO, List.filter_cons]
    · rcases he : eb p.1 with _ | ev
      · simp [scoreStep, hq, he, ih, cosO, List.filter_cons]
      · simp [scoreStep, hq, he, ih, cosO, List.filter_cons]
        constructor <;> ring

theorem sharedRoles_eq (qb eb : Bundle) :
    sharedRoles qb eb =
      ROLE_WEIGHTS.filter (fun p => (qb p.1).isSome && (eb p.1).isSome) := rfl

theorem ROLE_WEIGHTS_pos : ∀ p ∈ ROLE_WEIGHTS, 0 < p.2 := by
  intro p hp; fin_cases hp <;> norm_num [ROLE_WEIGHTS]

theorem weight_sum_pos (l : List (String × ℚ)) (h : ∀ p ∈ l, 0 < p.2)
    (hne : l ≠ []) : 0 < (l.map (fun p => p.2)).sum := by
  match l with
  | [] => exact absurd rfl hne
  | p :: rest =>
    have h0 : 0 < p.2 := h p (List.mem_cons_self p rest)
    have hr : 0 ≤ (rest.map (fun p => p.2)).sum := by
      apply List.sum_nonneg
      intro x hx
      obtain ⟨q, hq, rfl⟩ := List.mem_map.mp hx
      exact le_of_lt (h q (List.mem_cons_of_mem p hq))
    simpa using add_pos_of_pos_of_nonneg h0 hr

/-- C1: the similarity score is the weighted sum, over the roles present
in BOTH bundles (with weights question 1.0, category 0.6, keywords 0.8,
answer 0.4), of cosine similarity times the role's weight, divided by
the sum of the shared roles' weights; and if no role is shared it is
exactly 0 (never undefined — the division is guarded). -/
theorem score_shared_roles_weighted_average (cos : Vec → Vec → ℚ)
    (qb eb : Bundle) :
    score cos qb eb =
      if sharedRoles qb eb = [] then 0
      else ((sharedRoles qb eb).map
              (fun p => cosO cos (qb p.1) (eb p.1) * p.2)).sum /
           ((sharedRoles qb eb).map (fun p => p.2)).sum := by
  unfold score scoreWith
  rw [scoreStep_foldl_eq, ← sharedRoles_eq]
  simp only [zero_add]
  by_cases h : sharedRoles qb eb = []
  · simp [h]
  · have hpos : 0 < ((sharedRoles qb eb).map (fun p => p.2)).sum := by
      apply weight_sum_pos _ _ h
      intro p hp
      exact ROLE_WEIGHTS_pos p (List.mem_of_mem_filter hp)
    simp [h, hpos]

/-- C2 counterexample: the claim "the combined score lies in [0,1]
whenever per-role cosine similarities lie in [-1,1]" is false — with
every cosine equal to -1 (allowed by the [-1,1] hypothesis and by the
spec's own annotation) the score of two full bundles is -1. -/
theorem score_unit_interval_counterexample :
    ¬ (∀ (weights : List (String × ℚ)) (cos : Vec → Vec → ℚ)
        (qb eb : Bundle),
        (∀ p ∈ weights, 0 < p.2) →
        (∀ v w : Vec, -1 ≤ cos v w ∧ cos v w ≤ 1) →
        0 ≤ scoreWith cos weights qb eb ∧ scoreWith cos weights qb eb ≤ 1) := by
  intro h
  have hb := (h ROLE_WEIGHTS cosNegOne bOne bOne ROLE_WEIGHTS_pos
      (fun v w => by norm_num [cosNegOne])).1
  have hs : scoreWith cosNegOne ROLE_WEIGHTS bOne bOne = -1 := by
    norm_num [scoreWith, ROLE_WEIGHTS, scoreStep, cosNegOne, bOne]
  rw [hs] at hb
  norm_num at hb

/-- Invariant of the scoring fold: with nonnegative weights and cosines
in [-1,1], the weighted sum stays within ± the weight total. -/
theorem scoreStep_foldl_bound (cos : Vec → Vec → ℚ) (qb eb : Bundle)
    (hcos : ∀ v w : Vec, -1 ≤ cos v w ∧ cos v w ≤ 1) :
    ∀ (l : List (String × ℚ)) (acc : ℚ × ℚ),
    (∀ p ∈ l, 0 ≤ p.2) → -acc.2 ≤ acc.1 → acc.1 ≤ acc.2 →
    -(l.foldl (scoreStep cos qb eb) acc).2 ≤
        (l.foldl (scoreStep cos qb eb) acc).1 ∧
      (l.foldl (scoreStep cos qb eb) acc).1 ≤
        (l.foldl (scoreStep cos qb eb) acc).2 := by
  intro l
  induction l with
  | nil => intro acc _ h1 h2; exact ⟨h1, h2⟩
  | cons p rest ih =>
    intro acc hw h1 h2
    have hw0 : 0 ≤ p.2 := hw p (List.mem_cons_self p rest)
    have hwr : ∀ q ∈ rest, 0 ≤ q.2 :=
      fun q hq => hw q (List.mem_cons_of_mem p hq)
    rcases hq : qb p.1 with _ | qv <;> rcases he : eb p.1 with _ | ev <;>
      simp only [List.foldl_cons, scoreStep, hq, he]
    · exact ih acc hwr h1 h2
    · exact ih acc hwr h1 h2
    · exact ih acc hwr h1 h2
    · have hcv := hcos qv ev
      exact ih (acc.1 + cos qv ev * p.2, acc.2 + p.2) hwr
        (by simp only; nlinarith [hcv.1, hcv.2])
        (by simp only; nlinarith [hcv.1, hcv.2])

/-- C2 (amended): for every positive role-weight table and every pair of
bundles, if each per-role cosine similarity lies in [-1,1] then the
combined score lies in the closed interval [-1,1] (the lower end 0 of
the original claim is not guaranteed, as the counterexample shows). -/
theorem score_bounded_neg_one_one (weights : List (String × ℚ))
    (cos : Vec → Vec → ℚ) (qb eb : Bundle)
    (hw : ∀ p ∈ weights, 0 < p.2)
    (hcos : ∀ v w : Vec, -1 ≤ cos v w ∧ cos v w ≤ 1) :
    -1 ≤ scoreWith cos weights qb eb ∧ scoreWith cos weights qb eb ≤ 1 := by
  obtain ⟨h1, h2⟩ := scoreStep_foldl_bound cos qb eb hcos weights (0, 0)
    (fun p hp => le_of_lt (hw p hp)) (by norm_num) (by norm_num)
  unfold scoreWith
  by_cases hc : 0 < (weights.foldl (scoreStep cos qb eb) (0, 0)).2
  · rw [if_pos hc]
    constructor
    · rw [le_div_iff₀ hc]; linarith
    · rw [div_le_one hc]; exact h2
  · rw [if_neg hc]; norm_num

/-- Witness for C2's amended theorem at a concrete instance. -/
theorem score_bounded_neg_one_one_witness :
    -1 ≤ scoreWith cosZero ROLE_WEIGHTS bNone bNone ∧
      scoreWith cosZero ROLE_WEIGHTS bNone bNone ≤ 1 :=
  score_bounded_neg_one_one ROLE_WEIGHTS cosZero bNone bNone
    (by intro p hp; fin_cases hp <;> norm_num [ROLE_WEIGHTS])
    (fun v w => by norm_num [cosZero])

end FAQ

namespace FAQ

theorem insertDesc_perm (x : ℚ × Meta) (l : List (ℚ × Meta)) :
    List.Perm (insertDesc x l) (x :: l) := by
  induction l with
  | nil => exact List.Perm.refl _
  | cons y ys ih =>
    by_cases h : y.1 ≤ x.1
    · rw [insertDesc, if_pos h]
    · rw [insertDesc, if_neg h]
      exact (ih.cons y).trans (List.Perm.swap x y ys)

theorem sortDesc_perm (l : List (ℚ × Meta)) :
    List.Perm (sortDesc l) l := by
  induction l with
  | nil => exact List.Perm.refl _
  | cons x xs ih =>
    exact (insertDesc_perm x (sortDesc xs)).trans (ih.cons x)

theorem insertDesc_pairwise (x : ℚ × Meta) (l : List (ℚ × Meta))
    (hl : List.Pairwise (fun a b => b.1 ≤ a.1) l) :
    List.Pairwise (fun a b => b.1 ≤ a.1) (insertDesc x l) := by
  induction l with
  | nil => simp [insertDesc]
  | cons y ys ih =>
    rcases List.pairwise_cons.mp hl with ⟨hy, hys⟩
    by_cases h : y.1 ≤ x.1
    · rw [insertDesc, if_pos h]
      exact List.pairwise_cons.mpr
        ⟨fun b hb => by
          rcases List.mem_cons.mp hb with rfl | hb
          · exact h
          · exact le_trans (hy b hb) h, hl⟩
    · rw [insertDesc, if_neg h]
      refine List.pairwise_cons.mpr ⟨fun b hb => ?_, ih hys⟩
      rcases List.mem_cons.mp ((insertDesc_perm x ys).mem_iff.mp hb) with
        rfl | hb
      · exact le_of_lt (lt_of_not_ge h)
      · exact hy b hb

theorem sortDesc_pairwise (l : List (ℚ × Meta)) :
    List.Pairwise (fun a b => b.1 ≤ a.1) (sortDesc l) := by
  induction l with
  | nil => simp [sortDesc]
  | cons x xs ih => exact insertDesc_pairwise x (sortDesc xs) ih

theorem insertDesc_filter_eq (x : ℚ × Meta) (l : List (ℚ × Meta)) (s : ℚ)
    (hx : x.1 = s) :
    (insertDesc x l).filter (fun p => p.1 = s) =
      x :: l.filter (fun p => p.1 = s) := by
  induction l with
  | nil => simp [insertDesc, hx]
  | cons y ys ih =>
    by_cases h : y.1 ≤ x.1
    · rw [insertDesc, if_pos h]
      simp [hx]
    · have hy : ¬ (y.1 = s) := fun hys => h (by rw [hx, ← hys])
      rw [insertDesc, if_neg h]
      simp [List.filter_cons, hy, ih]

theorem insertDesc_filter_ne (x : ℚ × Meta) (l : List (ℚ × Meta)) (s : ℚ)
    (hx : ¬ (x.1 = s)) :
    (insertDesc x l).filter (fun p => p.1 = s) =
      l.filter (fun p => p.1 = s) := by
  induction l with
  | nil => simp [insertDesc, hx]
  | cons y ys ih =>
    by_cases h : y.1 ≤ x.1
    · rw [insertDesc, if_pos h]
      simp [List.filter_cons, hx]
    · rw [insertDesc, if_neg h]
      simp [List.filter_cons, ih]

theorem sortDesc_filter (l : List (ℚ × Meta)) (s : ℚ) :
    (sortDesc l).filter (fun p => p.1 = s) =
      l.filter (fun p => p.1 = s) := by
  induction l with
  | nil => rfl
  | cons x xs ih =>
    by_cases hx : x.1 = s
    · rw [sortDesc, insertDesc_filter_eq x _ s hx, ih,
        List.filter_cons_of_pos (by simpa using hx)]
    · rw [sortDesc, insertDesc_filter_ne x _ s hx, ih,
        List.filter_cons_of_neg (by simpa using hx)]

/-- C6: the matcher scores the query against every candidate in the
corpus (the ranked list has exactly one entry per corpus element), the
ranked list is sorted in descending order of score, and for every score
value the candidates carrying that exact score appear in their original
corpus order (stable ties) — together with sortedness this determines
the ranking uniquely. -/
theorem rankCandidates_sorted_stable (cos : Vec → Vec → ℚ) (qb : Bundle)
    (corpus : List (Bundle × Meta)) :
    (rankCandidates cos qb corpus).length = corpus.length ∧
    List.Pairwise (fun a b => b.1 ≤ a.1) (rankCandidates cos qb corpus) ∧
    ∀ s : ℚ,
      (rankCandidates cos qb corpus).filter (fun p => p.1 = s) =
        (corpus.map (fun c => (score cos qb c.1, c.2))).filter
          (fun p => p.1 = s) := by
  refine ⟨?_, sortDesc_pairwise _, fun s => sortDesc_filter _ s⟩
  rw [rankCandidates, (sortDesc_perm _).length_eq, List.length_map]

end FAQ

namespace FAQ

/-- C5 counterexample: the claim "confidence equal to the top score" is
false as stated — `FAQMatcher.match` rounds the confidence to 4 decimal
places, so a top score of 1/3 is reported as 0.3333, not 1/3. -/
theorem decideMatch_confidence_counterexample :
    (decideMatch (2/5) [((1/3 : ℚ), sampleMeta)]).confidence ≠ 1/3 := by
  have h : (decideMatch (2/5) [((1/3 : ℚ), sampleMeta)]).confidence =
      round4 (1/3) := by norm_num [decideMatch]
  have hr : round4 (1/3 : ℚ) = 3333/10000 := by
    unfold round4; rw [round_eq]; norm_num
  rw [h, hr]
  norm_num

/-- C5 (amended): the match decision on a ranked score list — empty
corpus gives the all-null abstain with confidence 0 and empty `top_3`;
a top score at or above the threshold returns that candidate's
id/category/answer; below it returns the all-null abstain; in both
non-empty cases the confidence is the top score ROUNDED to 4 decimal
places (not the raw top score, and not zero on abstain); id/category/
answer are null together exactly in the abstain cases; and `top_3`
always has `min 3 (corpus size)` entries. -/
theorem decideMatch_spec (threshold : ℚ) (scores : List (ℚ × Meta)) :
    (scores = [] →
      decideMatch threshold scores = ⟨none, none, none, 0, []⟩) ∧
    (∀ s rest, scores = s :: rest → threshold ≤ s.1 →
      decideMatch threshold scores =
        ⟨some s.2.question_id, some s.2.category, some s.2.answer,
          round4 s.1, top3 scores⟩) ∧
    (∀ s rest, scores = s :: rest → s.1 < threshold →
      decideMatch threshold scores =
        ⟨none, none, none, round4 s.1, top3 scores⟩) ∧
    ((decideMatch threshold scores).top_3.length = min 3 scores.length) ∧
    (((decideMatch threshold scores).question_id = none ∧
      (decideMatch threshold scores).category = none ∧
      (decideMatch threshold scores).answer = none) ↔
      (scores = [] ∨ ∃ s rest, scores = s :: rest ∧ s.1 < threshold)) := by
  match scores with
  | [] =>
    refine ⟨fun _ => ?_, fun s rest h => by simp at h,
      fun s rest h => by simp at h, ?_, ?_⟩
    · show (⟨none, none, none, round4 0, top3 []⟩ : MatchResult) = _
      have : round4 0 = 0 := by unfold round4; norm_num
      simp [this, top3]
    · show (top3 []).length = min 3 ([] : List (ℚ × Meta)).length
      simp [top3]
    · constructor
      · intro _; exact Or.inl rfl
      · intro _; exact ⟨rfl, rfl, rfl⟩
  | q :: qs =>
    by_cases hth : threshold ≤ q.1
    · refine ⟨fun h => by simp at h, ?_, ?_, ?_, ?_⟩
      · intro s rest h _
        obtain ⟨rfl, rfl⟩ : q = s ∧ qs = rest := by
          constructor <;> injection h
        show (if threshold ≤ q.1 then _ else _) = _
        rw [if_pos hth]
      · intro s rest h hlt
        obtain ⟨rfl, rfl⟩ : q = s ∧ qs = rest := by
          constructor <;> injection h
        exact absurd hth (not_le.mpr hlt)
      · show (if threshold ≤ q.1 then
            (⟨some q.2.question_id, some q.2.category, some q.2.answer,
              round4 q.1, top3 (q :: qs)⟩ : MatchResult)
          else ⟨none, none, none, round4 q.1, top3 (q :: qs)⟩).top_3.length
          = min 3 (q :: qs).length
        rw [if_pos hth]
        simp [top3, List.length_take]
        omega
      · rw [show decideMatch threshold (q :: qs) =
            ⟨some q.2.question_id, some q.2.category, some q.2.answer,
              round4 q.1, top3 (q :: qs)⟩ from by
          show (if threshold ≤ q.1 then _ else _) = _; rw [if_pos hth]]
        constructor
        · rintro ⟨h1, -, -⟩; exact absurd h1 (by simp)
        · rintro (h | ⟨s, rest, heq, hlt⟩)
          · exact absurd h (by simp)
          · obtain ⟨rfl, rfl⟩ : q = s ∧ qs = rest := by
              constructor <;> injection heq
            exact absurd hth (not_le.mpr hlt)
    · have hrw : decideMatch threshold (q :: qs) =
          ⟨none, none, none, round4 q.1, top3 (q :: qs)⟩ := by
        show (if threshold ≤ q.1 then _ else _) = _
        rw [if_neg hth]
      refine ⟨fun h => by simp at h, ?_, ?_, ?_, ?_⟩
      · intro s rest h hle
        obtain ⟨rfl, rfl⟩ : q = s ∧ qs = rest := by
          constructor <;> injection h
        exact absurd hle hth
      · intro s rest h _
        obtain ⟨rfl, rfl⟩ : q = s ∧ qs = rest := by
          constructor <;> injection h
        exact hrw
      · rw [hrw]; simp [top3, List.length_take]; omega
      · rw [hrw]
        constructor
        · intro _; exact Or.inr ⟨q, qs, rfl, not_le.mp hth⟩
        · intro _; exact ⟨rfl, rfl, rfl⟩

/-- Witness for C5's amended theorem: a concrete above-threshold match
and the `top_3` length at a singleton corpus. -/
theorem decideMatch_spec_witness :
    decideMatch (2/5) [((1/2 : ℚ), sampleMeta)] =
      ⟨some sampleMeta.question_id, some sampleMeta.category,
        some sampleMeta.answer, round4 (1/2),
        top3 [((1/2 : ℚ), sampleMeta)]⟩ ∧
    (decideMatch (2/5) [((1/2 : ℚ), sampleMeta)]).top_3.length =
      min 3 [((1/2 : ℚ), sampleMeta)].length :=
  ⟨(decideMatch_spec (2/5) [((1/2 : ℚ), sampleMeta)]).2.1
      ((1/2 : ℚ), sampleMeta) [] rfl (by norm_num),
    (decideMatch_spec (2/5) [((1/2 : ℚ), sampleMeta)]).2.2.2.1⟩

end FAQ

namespace FAQ

theorem selectBest_acc_le :
    ∀ (l : List (String × Nat)) (acc : String × Nat),
    acc.2 ≤ (selectBest acc l).2 := by
  intro l
  induction l with
  | nil => intro acc; exact le_refl _
  | cons p rest ih =>
    intro acc
    rw [selectBest]
    refine le_trans ?_ (ih _)
    by_cases h : acc.2 < p.2
    · rw [if_pos h]; exact le_of_lt h
    · rw [if_neg h]

theorem selectBest_le :
    ∀ (l : List (String × Nat)) (acc : String × Nat) (p : String × Nat),
    p ∈ l → p.2 ≤ (selectBest acc l).2 := by
  intro l
  induction l with
  | nil => intro acc p hp; simp at hp
  | cons q rest ih =>
    intro acc p hp
    rw [selectBest]
    rcases List.mem_cons.mp hp with rfl | hp
    · refine le_trans ?_ (selectBest_acc_le rest _)
      by_cases h : acc.2 < p.2
      · rw [if_pos h]
      · rw [if_neg h]; exact not_lt.mp h
    · exact ih _ p hp

theorem selectBest_const :
    ∀ (l : List (String × Nat)) (acc : String × Nat),
    (∀ p ∈ l, p.2 ≤ acc.2) → selectBest acc l = acc := by
  intro l
  induction l with
  | nil => intro acc _; rfl
  | cons p rest ih =>
    intro acc h
    rw [selectBest,
      if_neg (not_lt.mpr (h p (List.mem_cons_self p rest)))]
    exact ih acc (fun q hq => h q (List.mem_cons_of_mem p hq))

/-- Structure of the classifier's best-so-far loop: either the
accumulator survives untouched, or the result is an element of the list
that strictly beats the accumulator and every element BEFORE it (the
first maximum wins, because the update condition is strict `>`). -/
theorem selectBest_split :
    ∀ (l : List (String × Nat)) (acc : String × Nat),
    selectBest acc l = acc ∨
    ∃ l₁ l₂, l = l₁ ++ (selectBest acc l) :: l₂ ∧
      acc.2 < (selectBest acc l).2 ∧
      ∀ p ∈ l₁, p.2 < (selectBest acc l).2 := by
  intro l
  induction l with
  | nil => intro acc; exact Or.inl rfl
  | cons p rest ih =>
    intro acc
    by_cases h : acc.2 < p.2
    · have hred : selectBest acc (p :: rest) = selectBest p rest := by
        rw [selectBest, if_pos h]
      rcases ih p with hl | ⟨l₁, l₂, hsp, hacc, hall⟩
      · right
        refine ⟨[], rest, ?_, ?_, ?_⟩
        · rw [hred, hl]; rfl
        · rw [hred, hl]; exact h
        · intro q hq; simp at hq
      · right
        refine ⟨p :: l₁, l₂, ?_, ?_, ?_⟩
        · rw [hred]; rw [show p :: rest = p :: (l₁ ++ selectBest p rest :: l₂)
            from by rw [← hsp]]
          rfl
        · rw [hred]; exact lt_trans h hacc
        · intro q hq
          rcases List.mem_cons.mp hq with rfl | hq
          · rw [hred]; exact hacc
          · rw [hred]; exact hall q hq
    · have hred : selectBest acc (p :: rest) = selectBest acc rest := by
        rw [selectBest, if_neg h]
      rcases ih acc with hl | ⟨l₁, l₂, hsp, hacc, hall⟩
      · left; rw [hred, hl]
      · right
        refine ⟨p :: l₁, l₂, ?_, ?_, ?_⟩
        · rw [hred]; rw [show p :: rest =
            p :: (l₁ ++ selectBest acc rest :: l₂) from by rw [← hsp]]
          rfl
        · rw [hred]; exact hacc
        · intro q hq
          rcases List.mem_cons.mp hq with rfl | hq
          · rw [hred]; exact lt_of_le_of_lt (not_lt.mp h) hacc
          · rw [hred]; exact hall q hq

theorem bestCategory_count_le (lower : String) :
    ∀ cs ∈ _CATEGORY_SIGNALS,
    countSignals cs.2 lower ≤ (bestCategory lower).2 := by
  intro cs hcs
  exact selectBest_le (categoryScores lower) ("general", 0)
    (cs.1, countSignals cs.2 lower)
    (by exact List.mem_map.mpr ⟨cs, hcs, rfl⟩)

theorem bestCategory_zero (lower : String)
    (h : ∀ cs ∈ _CATEGORY_SIGNALS, countSignals cs.2 lower = 0) :
    bestCategory lower = ("general", 0) := by
  apply selectBest_const
  intro p hp
  obtain ⟨cs, hcs, rfl⟩ := List.mem_map.mp hp
  simp [h cs hcs]

theorem bestCategory_pos (lower : String)
    (h : ∃ cs ∈ _CATEGORY_SIGNALS, 0 < countSignals cs.2 lower) :
    0 < (bestCategory lower).2 := by
  obtain ⟨cs, hcs, hpos⟩ := h
  exact lt_of_lt_of_le hpos (bestCategory_count_le lower cs hcs)

theorem infer_category_eq_best (text domain action : String)
    (hp : 0 < (bestCategory (pyLower text)).2) :
    _infer_category text domain action = (bestCategory (pyLower text)).1 := by
  simp only [_infer_category]
  rw [if_pos hp]

theorem infer_category_fallback (text domain action : String)
    (h : ∀ cs ∈ _CATEGORY_SIGNALS, countSignals cs.2 (pyLower text) = 0) :
    _infer_category text domain action =
      (_DOMAIN_CATEGORY.lookup domain).getD
        ((_ACTION_CATEGORY.lookup action).getD "general") := by
  have hb := bestCategory_zero (pyLower text) h
  simp only [_infer_category, hb]
  rw [if_neg (by norm_num)]
  rcases _DOMAIN_CATEGORY.lookup domain with _ | c
  · rcases _ACTION_CATEGORY.lookup action with _ | c'
    · rfl
    · rfl
  · rfl

/-- C3: the classifier's precedence is text > domain hint > action hint
> default.  If any category's signal count over the lowered text is
nonzero, the result is determined by the text alone — changing the hint
arguments never changes it.  If all counts are zero, the result is the
domain-table mapping when the domain hint is a key, else the
action-table mapping when the action hint is a key, else the literal
`"general"`.  The classifier is a total function (it never raises). -/
theorem infer_category_precedence (text domain action : String) :
    ((∃ cs ∈ _CATEGORY_SIGNALS, 0 < countSignals cs.2 (pyLower text)) →
      ∀ domain' action',
        _infer_category text domain action =
          _infer_category text domain' action') ∧
    ((∀ cs ∈ _CATEGORY_SIGNALS, countSignals cs.2 (pyLower text) = 0) →
      _infer_category text domain action =
        (_DOMAIN_CATEGORY.lookup domain).getD
          ((_ACTION_CATEGORY.lookup action).getD "general")) := by
  constructor
  · intro h domain' action'
    have hp := bestCategory_pos (pyLower text) h
    rw [infer_category_eq_best text domain action hp,
      infer_category_eq_best text domain' action' hp]
  · exact infer_category_fallback text domain action

/-- Witness for C3 at concrete inputs: with a text signal present
("password"), the hints are ignored; with no text signal ("xyzzy"),
the domain hint decides. -/
theorem infer_category_precedence_witness :
    _infer_category "password" "payments" "track" =
      _infer_category "password" "" "" ∧
    _infer_category "xyzzy" "payments" "track" =
      (_DOMAIN_CATEGORY.lookup "payments").getD
        ((_ACTION_CATEGORY.lookup "track").getD "general") :=
  ⟨(infer_category_precedence "password" "payments" "track").1
      (by decide) "" "",
    (infer_category_precedence "xyzzy" "payments" "track").2 (by decide)⟩

theorem map_split {α β : Type} (f : α → β) :
    ∀ (l : List α) (m₁ : List β) (r : β) (m₂ : List β),
    l.map f = m₁ ++ r :: m₂ →
    ∃ l₁ x l₂, l = l₁ ++ x :: l₂ ∧ f x = r ∧ l₁.map f = m₁ := by
  intro l
  induction l with
  | nil =>
    intro m₁ r m₂ h
    rcases m₁ with _ | ⟨b, m₁'⟩ <;> simp at h
  | cons a t ih =>
    intro m₁ r m₂ h
    rcases m₁ with _ | ⟨b, m₁'⟩
    · simp only [List.map_cons, List.nil_append] at h
      obtain ⟨h1, h2⟩ := List.cons.inj h
      exact ⟨[], a, t, rfl, h1, rfl⟩
    · simp only [List.map_cons, List.cons_append] at h
      obtain ⟨h1, h2⟩ := List.cons.inj h
      obtain ⟨l₁, x, l₂, hl, hfx, hm⟩ := ih m₁' r m₂ h2
      exact ⟨a :: l₁, x, l₂, by rw [hl]; rfl, hfx, by simp [hm, h1]⟩

/-- C4: whenever some category's signal count over the text is nonzero,
the classifier returns a category whose count is ≥ every other
category's count, and among the categories attaining the maximum it
returns the FIRST one in the fixed enumeration order of
`_CATEGORY_SIGNALS` (account, billing, product, shipping, returns,
technical, general): every category listed before the returned one has
a strictly smaller count.  The result is independent of the hint
arguments. -/
theorem infer_category_first_max (text domain action : String)
    (h : ∃ cs ∈ _CATEGORY_SIGNALS, 0 < countSignals cs.2 (pyLower text)) :
    ∃ l₁ cs l₂, _CATEGORY_SIGNALS = l₁ ++ cs :: l₂ ∧
      _infer_category text domain action = cs.1 ∧
      (∀ cs' ∈ _CATEGORY_SIGNALS,
        countSignals cs'.2 (pyLower text) ≤
          countSignals cs.2 (pyLower text)) ∧
      (∀ cs' ∈ l₁,
        countSignals cs'.2 (pyLower text) <
          countSignals cs.2 (pyLower text)) ∧
      (∀ domain' action',
        _infer_category text domain' action' = cs.1) := by
  have hp := bestCategory_pos (pyLower text) h
  rcases selectBest_split (categoryScores (pyLower text)) ("general", 0) with
    heq | ⟨m₁, m₂, hsp, hacc, hall⟩
  · rw [show bestCategory (pyLower text) =
        selectBest ("general", 0) (categoryScores (pyLower text)) from rfl,
      heq] at hp
    simp at hp
  · have hsp' : _CATEGORY_SIGNALS.map
        (fun cs => (cs.1, countSignals cs.2 (pyLower text))) =
        m₁ ++ bestCategory (pyLower text) :: m₂ := hsp
    obtain ⟨l₁, x, l₂, hl, hfx, hm⟩ :=
      map_split (fun cs => (cs.1, countSignals cs.2 (pyLower text)))
        _CATEGORY_SIGNALS m₁ (bestCategory (pyLower text)) m₂ hsp'
    have hx2 : countSignals x.2 (pyLower text) = (bestCategory (pyLower text)).2 := by
      have := congrArg Prod.snd hfx; simpa using this
    have hx1 : x.1 = (bestCategory (pyLower text)).1 := by
      have := congrArg Prod.fst hfx; simpa using this
    refine ⟨l₁, x, l₂, hl, ?_, ?_, ?_, ?_⟩
    · rw [infer_category_eq_best text domain action hp, hx1]
    · intro cs' hcs'
      rw [hx2]
      exact bestCategory_count_le (pyLower text) cs' hcs'
    · intro cs' hcs'
      rw [hx2]
      exact hall (cs'.1, countSignals cs'.2 (pyLower text))
        (by rw [← hm]; exact List.mem_map.mpr ⟨cs', hcs', rfl⟩)
    · intro domain' action'
      rw [infer_category_eq_best text domain' action' hp, hx1]

/-- Witness for C4 at the concrete text "password" (account signal
count 1, all others 0). -/
theorem infer_category_first_max_witness :
    ∃ l₁ cs l₂, _CATEGORY_SIGNALS = l₁ ++ cs :: l₂ ∧
      _infer_category "password" "payments" "track" = cs.1 ∧
      (∀ cs' ∈ _CATEGORY_SIGNALS,
        countSignals cs'.2 (pyLower "password") ≤
          countSignals cs.2 (pyLower "password")) ∧
      (∀ cs' ∈ l₁,
        countSignals cs'.2 (pyLower "password") <
          countSignals cs.2 (pyLower "password")) ∧
      (∀ domain' action',
        _infer_category "password" domain' action' = cs.1) :=
  infer_category_first_max "password" "payments" "track" (by decide)

end FAQ

namespace FAQ

/-- C7 counterexample: the claimed cleaning behaviour ("characters that
are neither alphanumeric nor whitespace are REMOVED, whitespace is
collapsed") disagrees with the code on "a-b": `_preprocess` replaces the
hyphen with a space, giving "a b", while the claim's cleaning removes
it, giving "ab". -/
theorem preprocess_counterexample :
    _preprocess "a-b" ≠ cleanClaim "a-b" ∧
    _preprocess "a-b" = "a b" ∧ cleanClaim "a-b" = "ab" := by decide

theorem preprocess_eq_amended (s : String) :
    _preprocess s = cleanAmended s := by
  have h : ∀ l : List Char,
      (l.map Char.toLower).map
          (fun c => if isWordChar c || c.isWhitespace then c else ' ') =
        l.foldr
          (fun c acc =>
            (if isWordChar c.toLower || c.toLower.isWhitespace
             then c.toLower else ' ') :: acc)
          [] := by
    intro l
    induction l with
    | nil => rfl
    | cons c t ih => simp only [List.map_cons, List.foldr_cons, ih]
  show (⟨pyStripWs ((s.data.map Char.toLower).map
      (fun c => if isWordChar c || c.isWhitespace then c else ' '))⟩ : String) =
    cleanAmended s
  rw [h]
  rfl

/-- C7 (amended): the cleaning applied to query text by `encode_query`
and to FAQ question/answer text by `entry_to_record` is the SAME
function `_preprocess` (so identical input yields byte-identical
canonical text in both paths — the claim's symmetry half holds); its
output is the input lowercased with every character that is neither a
word character (alphanumeric or underscore) nor whitespace REPLACED by
a single space (not removed), and with whitespace trimmed only at the
surrounding edges (interior whitespace is not collapsed). -/
theorem preprocess_symmetry_spec :
    (∀ (hash : String → List Char) (extract : String → Extracted)
      (q : String),
      (encode_query hash extract q).attributes.question = _preprocess q) ∧
    (∀ e : Entry,
      (entry_to_record e).attributes.question =
        _preprocess (e.question.getD "") ∧
      (entry_to_record e).attributes.answer =
        _preprocess (e.answer.getD "")) ∧
    (∀ t : String, _preprocess t = cleanAmended t) :=
  ⟨fun _ _ _ => rfl, fun _ => ⟨rfl, rfl⟩, preprocess_eq_amended⟩

/-- C8 counterexample: a record missing the required `question` field is
NOT skipped — it is loaded and normalised with an empty question, so a
record lacking a question does enter the corpus (against the claim). -/
theorem load_missing_question_counterexample :
    load_all_jsonl [.blank, .bad, .parsed entryNoQuestion] =
      [entryNoQuestion] ∧
    entryNoQuestion.question = none ∧
    (entry_to_record entryNoQuestion).attributes.question = "" := by decide

theorem load_foldl_append :
    ∀ (lines : List RawLine) (acc : List Entry),
    lines.foldl
        (fun acc l =>
          match l with
          | .parsed e => acc ++ [e]
          | _ => acc)
        acc =
      acc ++ lines.filterMap
        (fun l =>
          match l with
          | .parsed e => some e
          | _ => none) := by
  intro lines
  induction lines with
  | nil => intro acc; simp
  | cons l rest ih =>
    intro acc
    cases l <;> simp [List.filterMap_cons, ih]

/-- C8 (amended): the loader skips exactly the blank lines and the
lines that fail JSON parsing (with a warning) and never aborts — the
load result is precisely the parsed entries in order.  Records missing
the `question` field are NOT skipped: `entry_to_record` normalises them
with an empty question (see the counterexample), so they do enter the
corpus. -/
theorem load_skips_unparsed_only (lines : List RawLine) :
    load_all_jsonl lines =
      lines.filterMap
        (fun l =>
          match l with
          | .parsed e => some e
          | _ => none) := by
  unfold load_all_jsonl
  rw [load_foldl_append]
  rfl

theorem hexVal_lt (c : Char) : hexVal c < 16 := by
  unfold hexVal
  split_ifs <;> omega

theorem hexToNat_foldl_lt :
    ∀ (s : List Char) (a : Nat),
    s.foldl (fun a c => 16 * a + hexVal c) a < (a + 1) * 16 ^ s.length := by
  intro s
  induction s with
  | nil => intro a; simp
  | cons c t ih =>
    intro a
    simp only [List.foldl_cons, List.length_cons]
    refine lt_of_lt_of_le (ih (16 * a + hexVal c)) ?_
    have h2 : hexVal c < 16 := hexVal_lt c
    have h3 : 16 * a + hexVal c + 1 ≤ 16 * (a + 1) := by omega
    calc (16 * a + hexVal c + 1) * 16 ^ t.length
        ≤ (16 * (a + 1)) * 16 ^ t.length := Nat.mul_le_mul_right _ h3
      _ = (a + 1) * 16 ^ (t.length + 1) := by ring

theorem stable_id_lt (hash : String → List Char) (q : String) :
    stable_id hash q < 2 ^ 32 := by
  unfold stable_id hexToNat
  refine lt_of_lt_of_le (hexToNat_foldl_lt ((hash q).take 8) 0) ?_
  have hlen : ((hash q).take 8).length ≤ 8 := by
    simp [List.length_take]
  calc (0 + 1) * 16 ^ ((hash q).take 8).length
      = 16 ^ ((hash q).take 8).length := by ring
    _ ≤ 16 ^ 8 := Nat.pow_le_pow_right (by norm_num) hlen
    _ = 2 ^ 32 := by norm_num

/-- C9: the derived numeric query identifier is `int` of the first 8
hex digits of a fixed hash of the RAW (pre-cleaning) query text, hence
(a) it fits the fixed 32-bit width, (b) it does not depend on the
intent extractor or any other per-invocation state (the query name, and
with it the identifier, is the same under any two extractors), and
(c) identical raw query text always yields the identical identifier —
`stable_id` is a pure function of the query string and the fixed hash. -/
theorem stable_id_deterministic_fixed_width
    (hash : String → List Char) (ex ex' : String → Extracted)
    (q q' : String) :
    stable_id hash q < 2 ^ 32 ∧
    (encode_query hash ex q).name = (encode_query hash ex' q).name ∧
    (q = q' → stable_id hash q = stable_id hash q') :=
  ⟨stable_id_lt hash q, rfl, fun h => by rw [h]⟩

/-- Witness for C9 at a concrete hash and query. -/
theorem stable_id_deterministic_fixed_width_witness :
    stable_id hashConst "hello" < 2 ^ 32 ∧
    stable_id hashConst "hello" = stable_id hashConst "hello" :=
  ⟨(stable_id_deterministic_fixed_width hashConst extractNone extractNone
      "hello" "hello").1,
    (stable_id_deterministic_fixed_width hashConst extractNone extractNone
      "hello" "hello").2.2 rfl⟩

/-- C10: when the intent extractor's keywords are empty (Python's falsy
`None`/`""`), `encode_query` falls back to the cleaned query text as
the keywords attribute; consequently the keywords attribute is
non-empty whenever the cleaned query text is non-empty. -/
theorem encode_query_keywords_fallback
    (hash : String → List Char) (extract : String → Extracted)
    (q : String) :
    ((extract (_preprocess q)).keywords = "" →
      (encode_query hash extract q).attributes.keywords = _preprocess q) ∧
    (_preprocess q ≠ "" →
      (encode_query hash extract q).attributes.keywords ≠ "") := by
  constructor
  · intro h
    show (if (extract (_preprocess q)).keywords = "" then _preprocess q
          else (extract (_preprocess q)).keywords) = _preprocess q
    rw [if_pos h]
  · intro hq
    show (if (extract (_preprocess q)).keywords = "" then _preprocess q
          else (extract (_preprocess q)).keywords) ≠ ""
    by_cases h : (extract (_preprocess q)).keywords = ""
    · rw [if_pos h]; exact hq
    · rw [if_neg h]; exact h

/-- Witness for C10: an extractor returning no keywords on the query
"hello" falls back to the cleaned text, which is non-empty. -/
theorem encode_query_keywords_fallback_witness :
    (encode_query hashConst extractNone "hello").attributes.keywords =
      _preprocess "hello" ∧
    (encode_query hashConst extractNone "hello").attributes.keywords ≠ "" :=
  ⟨(encode_query_keywords_fallback hashConst extractNone "hello").1 rfl,
    (encode_query_keywords_fallback hashConst extractNone "hello").2
      (by decide)⟩

end FAQ
